import Mathlib

/-!
Verification of the Nuitka code-generation backend specification.

This file gives a shallow embedding of the parts of the repository that the
verified properties talk about:

* the constant pool and constant access code of `nuitka/codegen/ConstantCodes.py`,
* the statement/expression dispatch, loop, try/except, try/finally and
  conditional lowering of `nuitka/codegen/CodeGeneration.py`,
* the chained-comparison reformulation of
  `nuitka/tree/ReformulationComparisonExpressions.py`.

Definitions are translated from the Python source; where a function of the
repository is referenced but its file is not available (for example
`nuitka.Constants.compareConstants`), the definition is modelled from the
specification text and its doc comment says so.
-/

namespace Nuitka

/-! ### Constant values

A deep embedding of the Python constant values that the constant pool of
`ConstantCodes.py` handles.  The constructors follow the runtime types the
source file distinguishes (`int`, `long`, `float`, `str`, `tuple`, `list`,
`set`, `frozenset`, `dict`, and the singletons).  Element sequences and
key/value pair sequences are mutual inductives so that decidable equality is
available. -/

mutual

inductive PyConst where
  | noneC : PyConst
  | ellipsisC : PyConst
  | boolC (b : Bool) : PyConst
  | intC (n : Int) : PyConst
  | longC (n : Int) : PyConst
  | floatC (q : ℚ) : PyConst
  | strC (s : String) : PyConst
  | tupleC (xs : PyConstSeq) : PyConst
  | listC (xs : PyConstSeq) : PyConst
  | setC (xs : PyConstSeq) : PyConst
  | frozensetC (xs : PyConstSeq) : PyConst
  | dictC (ps : PyConstPairs) : PyConst
  deriving DecidableEq, Repr

inductive PyConstSeq where
  | nil : PyConstSeq
  | cons (x : PyConst) (xs : PyConstSeq) : PyConstSeq
  deriving DecidableEq, Repr

inductive PyConstPairs where
  | nil : PyConstPairs
  | cons (k v : PyConst) (ps : PyConstPairs) : PyConstPairs
  deriving DecidableEq, Repr

end

/-- The runtime type tag of a constant, corresponding to `type(constant)`
in the Python source. -/
inductive PyTypeKind where
  | noneT | ellipsisT | boolT | intT | longT | floatT | strT
  | tupleT | listT | setT | frozensetT | dictT
  deriving DecidableEq, Repr

def PyConst.typeKind : PyConst → PyTypeKind
  | .noneC => .noneT
  | .ellipsisC => .ellipsisT
  | .boolC _ => .boolT
  | .intC _ => .intT
  | .longC _ => .longT
  | .floatC _ => .floatT
  | .strC _ => .strT
  | .tupleC _ => .tupleT
  | .listC _ => .listT
  | .setC _ => .setT
  | .frozensetC _ => .frozensetT
  | .dictC _ => .dictT

/-- The numeric value of a scalar constant, when it has one.  Python booleans,
plain integers, long integers and floats all compare numerically under the
loose `==` comparison. -/
def PyConst.numericValue? : PyConst → Option ℚ
  | .boolC b => some (if b then 1 else 0)
  | .intC n => some (n : ℚ)
  | .longC n => some (n : ℚ)
  | .floatC q => some q
  | _ => none

/-- Loose (Python `==`) comparison of two constants: numeric values compare by
value across runtime types, everything else structurally. -/
def looseEq (a b : PyConst) : Bool :=
  match a.numericValue?, b.numericValue? with
  | some qa, some qb => decide (qa = qb)
  | _, _ => decide (a = b)

/-- Modelled from the spec: `nuitka.Constants.compareConstants` is not under
`src/`; per the spec, deduplication of the constant pool is "by deep value
equality conditioned on exact runtime type — values equal under loose
comparison but of different type (e.g., integer vs. floating-point) are
distinct pool entries".  In this embedding that relation is exactly structural
equality of `PyConst`, whose constructors carry the runtime type.
`HashableConstant.__eq__` (ConstantCodes.py lines 431-434) delegates to it. -/
def compareConstants (a b : PyConst) : Bool :=
  decide (a = b)

/-! ### The constant pool

`context.getConstantCode` (in the Contexts module, which is not under `src/`)
maintains the per-module mapping from constants to stable identifiers, keyed
by `HashableConstant` whose equality is `compareConstants`.  We model the pool
as an association list with a monotone identifier counter. -/

structure ConstantPool where
  entries : List (PyConst × Nat)
  nextId : Nat
  deriving Repr

def emptyPool : ConstantPool := ⟨[], 0⟩

def lookupConstant : List (PyConst × Nat) → PyConst → Option Nat
  | [], _ => none
  | (k, i) :: rest, c => if compareConstants k c then some i else lookupConstant rest c

/-- Modelled from the spec: `intern(value) -> identifier` returning "a stable
identifier for any literal comparable by deep structural equality"
(`context.getConstantCode`, Contexts module not under `src/`).  Returns the
existing identifier on a hit, otherwise allocates a fresh one. -/
def getConstantCode (pool : ConstantPool) (c : PyConst) : Nat × ConstantPool :=
  match lookupConstant pool.entries c with
  | some i => (i, pool)
  | none => (pool.nextId, ⟨pool.entries ++ [(c, pool.nextId)], pool.nextId + 1⟩)

/-- Well-formedness of a pool: all stored identifiers are below the counter,
and distinct entries have non-equal keys and distinct identifiers. -/
def PoolWF (pool : ConstantPool) : Prop :=
  (∀ e ∈ pool.entries, e.2 < pool.nextId) ∧
  pool.entries.Pairwise (fun e₁ e₂ => compareConstants e₁.1 e₂.1 = false ∧ e₁.2 ≠ e₂.2)

instance : DecidablePred PoolWF := fun pool => by
  unfold PoolWF; infer_instance

theorem compareConstants_eq_true_iff {a b : PyConst} :
    compareConstants a b = true ↔ a = b := by
  simp [compareConstants]

theorem lookupConstant_mem {es : List (PyConst × Nat)} {c : PyConst} {i : Nat}
    (h : lookupConstant es c = some i) :
    ∃ k, (k, i) ∈ es ∧ compareConstants k c = true := by
  induction es with
  | nil => simp [lookupConstant] at h
  | cons e rest ih =>
    obtain ⟨k, j⟩ := e
    by_cases hk : compareConstants k c = true
    · simp [lookupConstant, hk] at h
      exact ⟨k, by simp [h], hk⟩
    · simp [lookupConstant, hk] at h
      obtain ⟨k', hmem, hcmp⟩ := ih h
      exact ⟨k', List.mem_cons_of_mem _ hmem, hcmp⟩

theorem lookupConstant_append_none {es es' : List (PyConst × Nat)} {c : PyConst}
    (h : lookupConstant es c = none) :
    lookupConstant (es ++ es') c = lookupConstant es' c := by
  induction es with
  | nil => simp
  | cons e rest ih =>
    obtain ⟨k, j⟩ := e
    by_cases hk : compareConstants k c = true
    · simp [lookupConstant, hk] at h
    · simp only [List.cons_append, lookupConstant, hk, if_false] at h ⊢
      exact ih h

theorem lookupConstant_none_forall {es : List (PyConst × Nat)} {c : PyConst}
    (h : lookupConstant es c = none) :
    ∀ e ∈ es, compareConstants e.1 c = false := by
  induction es with
  | nil => simp
  | cons e rest ih =>
    obtain ⟨k, j⟩ := e
    by_cases hk : compareConstants k c = true
    · simp [lookupConstant, hk] at h
    · simp only [lookupConstant, hk, if_false] at h
      intro e' he'
      rcases List.mem_cons.mp he' with h' | h'
      · subst h'; exact Bool.eq_false_iff.mpr hk
      · exact ih h e' h'

theorem poolWF_pairwise_symm :
    Symmetric (fun e₁ e₂ : PyConst × Nat =>
      compareConstants e₁.1 e₂.1 = false ∧ e₁.2 ≠ e₂.2) := by
  intro a b h
  refine ⟨?_, fun hw => h.2 hw.symm⟩
  have := h.1
  simp only [compareConstants, decide_eq_false_iff_not] at this ⊢
  exact fun hw => this hw.symm

/-- Claim C3: for constants of identical runtime type and deep-equal value
(that is, related by `compareConstants`), interning into the constant pool
yields the same identifier, and for values that are equal under loose
comparison but of different runtime type (such as integer 1 and
floating-point 1.0), the identifiers differ — the constant identifier is a
pure function of the pair (runtime type, deep value). -/
theorem constant_identifier_pure_function (pool : ConstantPool) (hwf : PoolWF pool)
    (c₁ c₂ : PyConst) :
    (compareConstants c₁ c₂ = true →
      (getConstantCode (getConstantCode pool c₁).2 c₂).1 = (getConstantCode pool c₁).1) ∧
    (looseEq c₁ c₂ = true → c₁.typeKind ≠ c₂.typeKind →
      (getConstantCode (getConstantCode pool c₁).2 c₂).1 ≠ (getConstantCode pool c₁).1) := by
  constructor
  · intro hcmp
    have hc : c₁ = c₂ := compareConstants_eq_true_iff.mp hcmp
    subst hc
    cases h1 : lookupConstant pool.entries c₁ with
    | some i =>
      simp [getConstantCode, h1]
    | none =>
      have happ : lookupConstant (pool.entries ++ [(c₁, pool.nextId)]) c₁ =
          lookupConstant [(c₁, pool.nextId)] c₁ := lookupConstant_append_none h1
      have hself : compareConstants c₁ c₁ = true := by simp [compareConstants]
      simp [getConstantCode, h1, happ, lookupConstant, hself]
  · intro _ htk
    have hne : c₁ ≠ c₂ := fun h => htk (by rw [h])
    cases h1 : lookupConstant pool.entries c₁ with
    | some i₁ =>
      obtain ⟨k₁, hmem₁, hcmp₁⟩ := lookupConstant_mem h1
      have hk₁ : k₁ = c₁ := compareConstants_eq_true_iff.mp hcmp₁
      rw [hk₁] at hmem₁
      cases h2 : lookupConstant pool.entries c₂ with
      | some i₂ =>
        obtain ⟨k₂, hmem₂, hcmp₂⟩ := lookupConstant_mem h2
        have hk₂ : k₂ = c₂ := compareConstants_eq_true_iff.mp hcmp₂
        rw [hk₂] at hmem₂
        have hdiff : (c₁, i₁) ≠ (c₂, i₂) := by
          intro h; exact hne (congrArg Prod.fst h)
        have hR := List.Pairwise.forall poolWF_pairwise_symm hwf.2 hmem₁ hmem₂ hdiff
        simp only [getConstantCode, h1, h2]
        exact fun h => hR.2 h.symm
      | none =>
        have hlt : i₁ < pool.nextId := hwf.1 _ hmem₁
        simp only [getConstantCode, h1, h2]
        exact fun h => absurd (h ▸ hlt) (lt_irrefl _)
    | none =>
      simp only [getConstantCode, h1]
      cases h2 : lookupConstant (pool.entries ++ [(c₁, pool.nextId)]) c₂ with
      | some i₂ =>
        obtain ⟨k₂, hmem₂, hcmp₂⟩ := lookupConstant_mem h2
        have hk₂ : k₂ = c₂ := compareConstants_eq_true_iff.mp hcmp₂
        rw [hk₂] at hmem₂
        rcases List.mem_append.mp hmem₂ with hold | hnew
        · have hlt : i₂ < pool.nextId := hwf.1 _ hold
          simp only [h2]
          exact fun h => absurd (h ▸ hlt) (lt_irrefl _)
        · simp only [List.mem_singleton, Prod.mk.injEq] at hnew
          exact absurd hnew.1.symm hne
      | none =>
        simp only [h2]
        exact Nat.succ_ne_self pool.nextId

/-- Witness for claim C3 at concrete inputs: interning the integer 1 and then
the floating-point 1.0 into the empty pool yields different identifiers,
although the two values are loosely equal. -/
theorem constant_identifier_pure_function_witness :
    (getConstantCode (getConstantCode emptyPool (PyConst.intC 1)).2 (PyConst.floatC 1)).1 ≠
      (getConstantCode emptyPool (PyConst.intC 1)).1 :=
  (constant_identifier_pure_function emptyPool (by constructor <;> simp [emptyPool])
      (PyConst.intC 1) (PyConst.floatC 1)).2 (by decide) (by decide)

/-! ### Use-site constant access (`getConstantAccessC`, ConstantCodes.py lines 514-615) -/

mutual

/-- Modelled from the spec: `nuitka.Constants.isMutable` is not under `src/`.
Per the spec, "containers whose contents are themselves fully
immutable/constant are interned directly", so a value is mutable iff it is a
list, set or dict, or a tuple with some mutable element; scalars and
frozensets are immutable. -/
def PyConst.isMutable : PyConst → Bool
  | .listC _ => true
  | .setC _ => true
  | .dictC _ => true
  | .tupleC xs => PyConstSeq.anyMutable xs
  | _ => false

/-- Whether some element of the sequence is mutable. -/
def PyConstSeq.anyMutable : PyConstSeq → Bool
  | .nil => false
  | .cons x xs => PyConst.isMutable x || PyConstSeq.anyMutable xs

end

/-- Whether some dictionary value is mutable, following the loop of
`getConstantAccessC` over `iterItems(constant)` (the source asserts that
keys are never mutable and inspects only the values). -/
def PyConstPairs.anyMutableValue : PyConstPairs → Bool
  | .nil => false
  | .cons _ v ps => PyConst.isMutable v || PyConstPairs.anyMutableValue ps

/-- The shape of the use-site access code emitted by `getConstantAccessC`:
either a support call producing a fresh object (deep or shallow copy, or an
empty construction) or a direct aliasing reference to the pooled constant. -/
inductive ConstantAccess where
  | deepCopy (id : Nat)
  | dictCopy (id : Nat)
  | dictNewEmpty
  | setNew (id : Nat)
  | setNewEmpty
  | listCopy (id : Nat)
  | listNewEmpty
  | direct (id : Nat)
  deriving DecidableEq, Repr

/-- `getConstantAccessC` (ConstantCodes.py lines 514-615): computes the code
for one use-site access of a constant, together with the `ref_count` (1 when
the destination owns a new reference, 0 when it aliases) and the updated
constant pool threaded through `getConstantCode`. -/
def getConstantAccessC (pool : ConstantPool) (c : PyConst) :
    ConstantAccess × Nat × ConstantPool :=
  match c with
  | .dictC ps =>
    match ps with
    | .nil => (.dictNewEmpty, 1, pool)
    | .cons _ _ _ =>
      if PyConstPairs.anyMutableValue ps then
        let r := getConstantCode pool c
        (.deepCopy r.1, 1, r.2)
      else
        let r := getConstantCode pool c
        (.dictCopy r.1, 1, r.2)
  | .setC xs =>
    match xs with
    | .nil => (.setNewEmpty, 1, pool)
    | .cons _ _ =>
      let r := getConstantCode pool c
      (.setNew r.1, 1, r.2)
  | .listC xs =>
    match xs with
    | .nil => (.listNewEmpty, 1, pool)
    | .cons _ _ =>
      if PyConstSeq.anyMutable xs then
        let r := getConstantCode pool c
        (.deepCopy r.1, 1, r.2)
      else
        let r := getConstantCode pool c
        (.listCopy r.1, 1, r.2)
  | .tupleC xs =>
    if PyConstSeq.anyMutable xs then
      let r := getConstantCode pool c
      (.deepCopy r.1, 1, r.2)
    else
      let r := getConstantCode pool c
      (.direct r.1, 0, r.2)
  | _ =>
    let r := getConstantCode pool c
    (.direct r.1, 0, r.2)

/-- Whether the access aliases the shared pooled instance. -/
def ConstantAccess.isAlias : ConstantAccess → Bool
  | .direct _ => true
  | _ => false

/-- Whether the access emits a copy support call (deep or shallow) on the
pooled instance. -/
def ConstantAccess.isCopyCall : ConstantAccess → Bool
  | .deepCopy _ => true
  | .dictCopy _ => true
  | .setNew _ => true
  | .listCopy _ => true
  | _ => false

/-- Claim C4 counterexample: the constant list `[1, 2]` has only immutable
contents, yet its use-site access is a `LIST_COPY` support call — a copy, not
an alias of the pooled instance — refuting the claim that every constant
container with all-immutable contents is aliased with no copy call. -/
theorem immutable_list_constant_use_site_copies :
    (getConstantAccessC emptyPool
        (.listC (.cons (.intC 1) (.cons (.intC 2) .nil)))).1 =
      ConstantAccess.listCopy 0 ∧
    ConstantAccess.isAlias (getConstantAccessC emptyPool
        (.listC (.cons (.intC 1) (.cons (.intC 2) .nil)))).1 = false ∧
    ConstantAccess.isCopyCall (getConstantAccessC emptyPool
        (.listC (.cons (.intC 1) (.cons (.intC 2) .nil)))).1 = true := by
  decide

/-- Claim C4 (amended): a constant container with at least one mutable element
gets a deep-copy support call at every use site; among all-immutable-content
containers, only tuples (and non-container scalars) alias the pooled instance
directly with no copy call and no owned reference, while non-empty lists and
dicts get a shallow-copy call (`LIST_COPY` / `PyDict_Copy`) and non-empty sets
always get a `PySet_New` copy construction. -/
theorem getConstantAccessC_copy_discipline (pool : ConstantPool) :
    (∀ xs, PyConstSeq.anyMutable xs = true →
      (getConstantAccessC pool (.listC xs)).1 =
        .deepCopy (getConstantCode pool (.listC xs)).1) ∧
    (∀ xs, PyConstSeq.anyMutable xs = true →
      (getConstantAccessC pool (.tupleC xs)).1 =
        .deepCopy (getConstantCode pool (.tupleC xs)).1) ∧
    (∀ ps, PyConstPairs.anyMutableValue ps = true →
      (getConstantAccessC pool (.dictC ps)).1 =
        .deepCopy (getConstantCode pool (.dictC ps)).1) ∧
    (∀ xs, PyConstSeq.anyMutable xs = false →
      (getConstantAccessC pool (.tupleC xs)).1 =
        .direct (getConstantCode pool (.tupleC xs)).1 ∧
      (getConstantAccessC pool (.tupleC xs)).2.1 = 0) ∧
    (∀ xs, xs ≠ PyConstSeq.nil → PyConstSeq.anyMutable xs = false →
      (getConstantAccessC pool (.listC xs)).1 =
        .listCopy (getConstantCode pool (.listC xs)).1) ∧
    (∀ ps, ps ≠ PyConstPairs.nil → PyConstPairs.anyMutableValue ps = false →
      (getConstantAccessC pool (.dictC ps)).1 =
        .dictCopy (getConstantCode pool (.dictC ps)).1) ∧
    (∀ xs, xs ≠ PyConstSeq.nil →
      (getConstantAccessC pool (.setC xs)).1 =
        .setNew (getConstantCode pool (.setC xs)).1) ∧
    (∀ n : Int, (getConstantAccessC pool (.intC n)).1 =
        .direct (getConstantCode pool (.intC n)).1 ∧
      (getConstantAccessC pool (.intC n)).2.1 = 0) := by
  refine ⟨?_, ?_, ?_, ?_, ?_, ?_, ?_, ?_⟩
  · intro xs h
    cases xs with
    | nil => simp [PyConstSeq.anyMutable] at h
    | cons x rest => simp [getConstantAccessC, h]
  · intro xs h
    simp [getConstantAccessC, h]
  · intro ps h
    cases ps with
    | nil => simp [PyConstPairs.anyMutableValue] at h
    | cons k v rest => simp [getConstantAccessC, h]
  · intro xs h
    simp [getConstantAccessC, h]
  · intro xs hne h
    cases xs with
    | nil => exact absurd rfl hne
    | cons x rest => simp [getConstantAccessC, h]
  · intro ps hne h
    cases ps with
    | nil => exact absurd rfl hne
    | cons k v rest => simp [getConstantAccessC, h]
  · intro xs hne
    cases xs with
    | nil => exact absurd rfl hne
    | cons x rest => simp [getConstantAccessC]
  · intro n
    simp [getConstantAccessC]

/-- Witness for the amended claim C4 at the concrete constant `[1, 2, [3]]`:
its use-site access is a deep-copy call, since the outer list contains a
mutable nested list. -/
theorem getConstantAccessC_copy_discipline_witness :
    (getConstantAccessC emptyPool
        (.listC (.cons (.intC 1) (.cons (.intC 2)
          (.cons (.listC (.cons (.intC 3) .nil)) .nil))))).1 =
      ConstantAccess.deepCopy (getConstantCode emptyPool
        (.listC (.cons (.intC 1) (.cons (.intC 2)
          (.cons (.listC (.cons (.intC 3) .nil)) .nil))))).1 :=
  (getConstantAccessC_copy_discipline emptyPool).1 _ (by decide)

/-! ### Try/finally outcome dispatch
(`generateTryFinallyCode`, CodeGeneration.py lines 3064-3135) -/

/-- One pending-outcome dispatch step emitted after the finally body. -/
inductive FinallyExit where
  | reraise | ret | cont | brk | fallThrough
  deriving DecidableEq, Repr

/-- Static per-statement facts of a try/finally that decide which dispatch
checks are emitted: `tried_block.mayRaiseException(BaseException)`,
`statement.needsExceptionPublish()`, `statement.needsReturnHandling()`,
`statement.needsContinueHandling()` and `statement.needsBreakHandling()`. -/
structure TryFinallyFlags where
  triedMayRaise : Bool
  publishException : Bool
  needsReturnHandling : Bool
  needsContinueHandling : Bool
  needsBreakHandling : Bool
  deriving DecidableEq, Repr

/-- The ordered sequence of dispatch checks `generateTryFinallyCode` emits
after the finally body (lines 3064-3135): the keeper-slot reraise check when
the tried block may raise and the exception is not published, then the return
redispatch, then the continue-flag check, then the break-flag check, and then
the unconditional goto to the `finally_end` label. -/
def tryFinallyDispatchChecks (f : TryFinallyFlags) : List FinallyExit :=
  (if f.triedMayRaise && !f.publishException then [.reraise] else []) ++
  (if f.needsReturnHandling then [.ret] else []) ++
  (if f.needsContinueHandling then [.cont] else []) ++
  (if f.needsBreakHandling then [.brk] else []) ++
  [.fallThrough]

/-- Whether a given dispatch check is emitted at all for the given flags. -/
def finallyCheckEnabled (f : TryFinallyFlags) : FinallyExit → Bool
  | .reraise => f.triedMayRaise && !f.publishException
  | .ret => f.needsReturnHandling
  | .cont => f.needsContinueHandling
  | .brk => f.needsBreakHandling
  | .fallThrough => true

/-- Runtime state of the pending-outcome indicators when control reaches the
dispatch code: keeper slots holding an exception, a pending return, and the
continue and break boolean indicators set by redirected statements. -/
structure PendingOutcomes where
  excPending : Bool
  returnPending : Bool
  continuePending : Bool
  breakPending : Bool
  deriving DecidableEq, Repr

/-- Whether a dispatch check fires on the given pending state.  The continue
and break checks are emitted literally in src as conditional gotos on their
indicator variables (lines 3097-3132); the reraise and return steps expand
templates that are not under src/ and are modelled from the spec: the reraise
template re-raises when the keeper slots hold an exception, the return
template redispatches when a return is pending. -/
def finallyCheckFires : FinallyExit → PendingOutcomes → Bool
  | .reraise, st => st.excPending
  | .ret, st => st.returnPending
  | .cont, st => st.continuePending
  | .brk, st => st.breakPending
  | .fallThrough, _ => true

/-- Executing the emitted check sequence: each check is a conditional goto, so
the first check whose condition holds receives control, and the trailing
unconditional goto gives normal fall-through. -/
def runFinallyDispatch : List FinallyExit → PendingOutcomes → FinallyExit
  | [], _ => .fallThrough
  | c :: rest, st =>
    if finallyCheckFires c st then c else runFinallyDispatch rest st

/-- Claim C1: after the finally body runs, the emitted dispatch checks the
pending outcomes in exactly the priority order reraise, return, continue,
break, normal fall-through (the emission is the canonical priority list
filtered to the enabled checks), and executing the dispatch selects exactly
one outcome — the highest-priority pending one.  The hypotheses state that an
outcome can only be pending when its handling was enabled for the statement,
which is how the tried block is generated. -/
theorem try_finally_dispatch_priority (f : TryFinallyFlags) (st : PendingOutcomes)
    (hexc : st.excPending = true → (f.triedMayRaise && !f.publishException) = true)
    (hret : st.returnPending = true → f.needsReturnHandling = true)
    (hcont : st.continuePending = true → f.needsContinueHandling = true)
    (hbrk : st.breakPending = true → f.needsBreakHandling = true) :
    tryFinallyDispatchChecks f =
      ([FinallyExit.reraise, .ret, .cont, .brk].filter (finallyCheckEnabled f)) ++
        [FinallyExit.fallThrough] ∧
    runFinallyDispatch (tryFinallyDispatchChecks f) st =
      (if st.excPending then .reraise
       else if st.returnPending then .ret
       else if st.continuePending then .cont
       else if st.breakPending then .brk
       else .fallThrough) := by
  obtain ⟨tm, pe, nr, nc, nb⟩ := f
  obtain ⟨ep, rp, cp, bp⟩ := st
  revert hexc hret hcont hbrk
  cases tm <;> cases pe <;> cases nr <;> cases nc <;> cases nb <;>
    cases ep <;> cases rp <;> cases cp <;> cases bp <;> decide

/-- Witness for claim C1 at a concrete input: with all handling enabled and
both the continue and break indicators set, the dispatch selects continue,
the higher-priority outcome. -/
theorem try_finally_dispatch_priority_witness :
    runFinallyDispatch (tryFinallyDispatchChecks ⟨true, false, true, true, true⟩)
      ⟨false, false, true, true⟩ = FinallyExit.cont := by
  have h := (try_finally_dispatch_priority ⟨true, false, true, true, true⟩
    ⟨false, false, true, true⟩ (by decide) (by decide) (by decide) (by decide)).2
  simpa using h

/-! ### The duplicate-generation invariant
(`_generateExpressionCode` lines 1017-1028, `generateExpressionCode` lines
2281-2298, `_generateStatementCode` lines 3728-3968) -/

/-- An AST expression node, reduced to the identity and source location that
the duplicate-generation machinery uses. -/
structure ExprNode where
  nodeId : Nat
  sourceRef : Nat
  deriving DecidableEq, Repr

/-- `_generateExpressionCode` (lines 1017-1028), restricted to its marker
discipline: it asserts that the node does not yet carry the `code_generated`
attribute and then sets it; an already-marked node is a fatal assertion
failure, modelled as `none`.  The `marked` list is the set of node identities
currently carrying the attribute. -/
def generateExpressionCodeInner (marked : List Nat) (e : ExprNode) :
    Option (List Nat) :=
  if e.nodeId ∈ marked then none else some (e.nodeId :: marked)

/-- `generateExpressionCode` (lines 2281-2298): wraps the inner dispatch and,
on any failure, reports the offending node together with its source reference
and re-raises, so the failure stays fatal and is never recovered. -/
def generateExpressionCodeChecked (marked : List Nat) (e : ExprNode) :
    Except (Nat × Nat) (List Nat) :=
  match generateExpressionCodeInner marked e with
  | none => .error (e.nodeId, e.sourceRef)
  | some m => .ok m

/-- A statement node, for the marker discipline: a break statement has no
sub-expressions, an expression statement routes its sub-expression through
`generateExpressionCode`. -/
inductive StmtNode where
  | breakLoop (nodeId : Nat)
  | exprStatement (nodeId : Nat) (e : ExprNode)
  deriving DecidableEq, Repr

/-- `_generateStatementCode` (lines 3728-3968), restricted to its marker
behaviour: the statement dispatch neither checks nor sets any
`code_generated` marker on the statement node itself.  A break statement
(line 3857) touches no markers at all; a statement with a sub-expression
routes it through `generateExpressionCode`. -/
def generateStatementCodeInner (marked : List Nat) :
    StmtNode → Except (Nat × Nat) (List Nat)
  | .breakLoop _ => .ok marked
  | .exprStatement _ e => generateExpressionCodeChecked marked e

/-- Generating the same statement node twice in a row, starting with no
markers set. -/
def generateStatementCodeTwice (s : StmtNode) : Except (Nat × Nat) (List Nat) :=
  match generateStatementCodeInner [] s with
  | .error err => .error err
  | .ok m => generateStatementCodeInner m s

/-- Generating the same expression node twice in a row, starting with no
markers set. -/
def generateExpressionCodeTwiceChecked (e : ExprNode) :
    Except (Nat × Nat) (List Nat) :=
  match generateExpressionCodeChecked [] e with
  | .error err => .error err
  | .ok m => generateExpressionCodeChecked m e

/-- Claim C2 counterexample: generating code for the same statement node
instance (here a break statement) a second time does not fail — the
duplicate-generation marker exists only on the expression path, so the
claim does not hold for statement nodes. -/
theorem duplicate_statement_generation_not_detected :
    generateStatementCodeTwice (StmtNode.breakLoop 7) = .ok [] := rfl

/-- Claim C2 (amended): the duplicate-generation invariant holds for
expression nodes only — generating code for the same expression node instance
a second time fails the `code_generated` marker assertion, fatally, and the
failure is reported together with the offending node and its source
location; statement nodes carry no duplicate-generation check of their own. -/
theorem duplicate_expression_generation_fatal (marked : List Nat) (e : ExprNode)
    (h : e.nodeId ∉ marked) :
    generateExpressionCodeChecked marked e = .ok (e.nodeId :: marked) ∧
    generateExpressionCodeChecked (e.nodeId :: marked) e =
      .error (e.nodeId, e.sourceRef) ∧
    generateExpressionCodeTwiceChecked e = .error (e.nodeId, e.sourceRef) ∧
    (∀ i, generateStatementCodeInner marked (StmtNode.breakLoop i) = .ok marked) := by
  refine ⟨?_, ?_, ?_, fun i => rfl⟩
  · simp [generateExpressionCodeChecked, generateExpressionCodeInner, h]
  · simp [generateExpressionCodeChecked, generateExpressionCodeInner]
  · simp [generateExpressionCodeTwiceChecked, generateExpressionCodeChecked,
      generateExpressionCodeInner]

/-- Witness for the amended claim C2 at a concrete node: the expression node
with identity 3 and source reference 42 generates once, and the second
generation fails reporting exactly that node and location. -/
theorem duplicate_expression_generation_fatal_witness :
    generateExpressionCodeTwiceChecked ⟨3, 42⟩ = .error (3, 42) :=
  (duplicate_expression_generation_fatal [] ⟨3, 42⟩ (by decide)).2.2.1

/-! ### Cleanup-set discipline at statement boundaries
(`generateStatementCode` lines 3971-3990, `generateTryFinallyCode` lines
2855-2868 and 3219-3221, `generateStatementSequenceCode` lines 4087-4089) -/

/-- The post-statement check of `generateStatementCode` (lines 3975-3982):
when the statement has a grandparent node (`statement.parent.getParent()`)
and that node is not an expression, assert that the cleanup temp-name set is
empty or equals the module-level `_temp_whitelist`.  The whitelist is the
cleanup set captured on entry of a try/finally used as an expression (lines
2863-2868) and reset to empty on its exit (lines 3219-3221); boundaries whose
grandparent is an expression — statements directly inside such a try/finally
— are not checked at all.  `tryFinallyCandidate` is `none` when there is no
grandparent and otherwise carries `isExpression()`. -/
def statementBoundaryCheckPasses (cleanup whitelist : List Nat)
    (tryFinallyCandidate : Option Bool) : Bool :=
  match tryFinallyCandidate with
  | none => true
  | some true => true
  | some false => cleanup.isEmpty || decide (cleanup = whitelist)

/-- The end-of-sequence check of `generateStatementSequenceCode` (lines
4087-4089): the cleanup set of the statement context must be empty, with no
whitelist exemption. -/
def statementSequenceEndCheckPasses (cleanup : List Nat) : Bool :=
  cleanup.isEmpty

/-- Claim C9: the enforced statement-boundary invariant is that the cleanup
set is empty — except within the whitelisted region of a try/finally used as
an expression, where it may equal exactly the whitelist captured on entry
(and statements whose direct enclosing construct is such an expression are
exempt) — and at the end of every statement sequence the cleanup set is
empty unconditionally. -/
theorem cleanup_set_statement_boundary (cleanup whitelist : List Nat) :
    (statementBoundaryCheckPasses cleanup whitelist (some false) = true ↔
      cleanup = [] ∨ cleanup = whitelist) ∧
    (whitelist = [] →
      (statementBoundaryCheckPasses cleanup whitelist (some false) = true ↔
        cleanup = [])) ∧
    statementBoundaryCheckPasses cleanup whitelist (some true) = true ∧
    (statementSequenceEndCheckPasses cleanup = true ↔ cleanup = []) := by
  refine ⟨?_, ?_, rfl, ?_⟩
  · simp [statementBoundaryCheckPasses, List.isEmpty_iff]
  · intro hw
    subst hw
    simp [statementBoundaryCheckPasses, List.isEmpty_iff]
  · simp [statementSequenceEndCheckPasses, List.isEmpty_iff]

/-- Witness for claim C9 at concrete inputs: with the whitelist `[5]` from a
try/finally expression, a boundary cleanup set `[5]` passes the check, and an
empty cleanup set passes the end-of-sequence check. -/
theorem cleanup_set_statement_boundary_witness :
    statementBoundaryCheckPasses [5] [5] (some false) = true ∧
    statementSequenceEndCheckPasses [] = true :=
  ⟨((cleanup_set_statement_boundary [5] [5]).1).mpr (Or.inr rfl),
   ((cleanup_set_statement_boundary [] [5]).2.2.2).mpr rfl⟩

/-! ### Branch-target save/restore in `generateConditionCode`
(CodeGeneration.py lines 204-328) -/

/-- A value held in the true/false branch-target slots of the context.  In
correct operation these are labels (or no target); the constructor
`accessor` stands for the bound method object `context.getFalseBranchTarget`
itself, which is what line 254 stores because the attribute access lacks call
parentheses. -/
inductive BranchTargetValue where
  | label (n : Nat)
  | noTarget
  | accessor
  deriving DecidableEq, Repr

/-- The true-branch and false-branch target slots of the context. -/
structure BranchTargets where
  trueTarget : BranchTargetValue
  falseTarget : BranchTargetValue
  deriving DecidableEq, Repr

/-- The inverted-comparison arm of `generateConditionCode` (lines 251-269):
it saves `true_target = context.getTrueBranchTarget()` but
`false_target = context.getFalseBranchTarget` — the bound method object, not
its value, since the call parentheses are missing at line 254 — then swaps
the two slots around the comparison emission and finally writes both saved
values back.  The result pair is (targets in effect while the comparison is
emitted, targets after the restore). -/
def invertedComparisonTargets (ctx : BranchTargets) :
    BranchTargets × BranchTargets :=
  let true_target := ctx.trueTarget
  let false_target := BranchTargetValue.accessor
  (⟨false_target, true_target⟩, ⟨true_target, false_target⟩)

/-- The unary-not arm of `generateConditionCode` (lines 270-287), whose
save/restore calls both getters properly; included for contrast. -/
def operationNotTargets (ctx : BranchTargets) : BranchTargets × BranchTargets :=
  let true_target := ctx.trueTarget
  let false_target := ctx.falseTarget
  (⟨false_target, true_target⟩, ⟨true_target, false_target⟩)

/-- Claim C10: lowering an inverted comparison does NOT restore the branch
targets to the values they held before the call — line 254 binds the accessor
method instead of calling it, so the comparison is emitted with the method
object as its true-branch target and the false-branch target is "restored" to
that method object rather than to the prior label, while the parallel
unary-not arm restores both targets correctly. -/
theorem inverted_comparison_target_restore_bug :
    (invertedComparisonTargets ⟨.label 0, .label 1⟩).2 ≠
      (⟨.label 0, .label 1⟩ : BranchTargets) ∧
    (invertedComparisonTargets ⟨.label 0, .label 1⟩).2.falseTarget =
      BranchTargetValue.accessor ∧
    (invertedComparisonTargets ⟨.label 0, .label 1⟩).1.trueTarget =
      BranchTargetValue.accessor ∧
    (operationNotTargets ⟨.label 0, .label 1⟩).2 =
      (⟨.label 0, .label 1⟩ : BranchTargets) := by
  decide

/-! ### Conditional-expression ownership reconciliation
(`_generateExpressionCode`, the `isExpressionConditional` arm, lines
1649-1715) -/

/-- The instructions of the emitted conditional-expression code that matter
for reference ownership: labels, gotos, the code of one branch (after which
the destination temp owns a reference iff the recorded `needs_ref` of that
branch holds), and the inserted `Py_INCREF` on the destination. -/
inductive CondInstr where
  | labelAt (l : Nat)
  | gotoL (l : Nat)
  | branchCode (owns : Bool)
  | increfDest
  deriving DecidableEq, Repr

/-- The code emitted for a conditional expression, as assembled at lines
1666-1712.  Labels: 0 is `condexpr_true`, 1 is `condexpr_false`, 2 is
`condexpr_end`.  The yes branch is generated first and its ownership
(`needs_ref1`) recorded; the no branch is generated into a buffer and its
ownership (`needs_ref2`) recorded; depending on the two flags the buffered
code and an extra `Py_INCREF` are appended in the order of the source. -/
def condExprEmission (r1 r2 : Bool) : List CondInstr :=
  [.labelAt 0, .branchCode r1] ++
  (if r1 && !r2 then
    [.gotoL 2, .labelAt 1, .branchCode r2, .increfDest, .labelAt 2]
  else if !r1 && r2 then
    [.increfDest, .gotoL 2, .labelAt 1, .branchCode r2, .labelAt 2]
  else
    [.gotoL 2, .labelAt 1, .branchCode r2, .labelAt 2])

/-- Position of a label in the program. -/
def labelPos : List CondInstr → Nat → Nat
  | [], _ => 0
  | .labelAt l' :: rest, l => if l' = l then 0 else labelPos rest l + 1
  | _ :: rest, l => labelPos rest l + 1

/-- Fuel-bounded execution of the emitted code from a program counter,
tracking whether the destination temp currently owns a reference and how many
`Py_INCREF`s on the destination were executed; stops at the end label 2. -/
def runCond (prog : List CondInstr) : Nat → Nat → Bool → Nat → Bool × Nat
  | 0, _, owns, k => (owns, k)
  | fuel + 1, pc, owns, k =>
    match prog.get? pc with
    | none => (owns, k)
    | some (.labelAt l) =>
      if l = 2 then (owns, k) else runCond prog fuel (pc + 1) owns k
    | some (.gotoL l) => runCond prog fuel (labelPos prog l) owns k
    | some (.branchCode b) => runCond prog fuel (pc + 1) b k
    | some .increfDest => runCond prog fuel (pc + 1) true (k + 1)

/-- Ownership state and INCREF count at the join point when the condition
selected the yes branch. -/
def condExprTruePathResult (r1 r2 : Bool) : Bool × Nat :=
  runCond (condExprEmission r1 r2) 12 (labelPos (condExprEmission r1 r2) 0) false 0

/-- Ownership state and INCREF count at the join point when the condition
selected the no branch. -/
def condExprFalsePathResult (r1 r2 : Bool) : Bool × Nat :=
  runCond (condExprEmission r1 r2) 12 (labelPos (condExprEmission r1 r2) 1) false 0

/-- The cleanup-set bookkeeping for the destination after the join, following
lines 1671-1710: `needs_ref1` is removed before the no branch is generated,
re-added in the first divergent case, and left from the no branch otherwise. -/
def condExprFinalCleanup (r1 r2 : Bool) : Bool :=
  if r1 && !r2 then true
  else if !r1 && r2 then r2
  else r2

/-- Claim C8: for every conditional expression, both join paths leave the
destination temp in the same ownership state; when the two branches diverge
(one owns, one borrows) exactly one `Py_INCREF` is inserted, on the borrowing
path only, making both paths owning; when they agree no increment is
inserted; and the recorded cleanup state after the join matches the actual
ownership on the paths. -/
theorem conditional_expression_ownership_reconciled (r1 r2 : Bool) :
    (condExprTruePathResult r1 r2).1 = (condExprFalsePathResult r1 r2).1 ∧
    (r1 = true → r2 = false →
      (condExprTruePathResult r1 r2).2 = 0 ∧
      (condExprFalsePathResult r1 r2).2 = 1 ∧
      (condExprTruePathResult r1 r2).1 = true ∧
      (condExprFalsePathResult r1 r2).1 = true) ∧
    (r1 = false → r2 = true →
      (condExprTruePathResult r1 r2).2 = 1 ∧
      (condExprFalsePathResult r1 r2).2 = 0 ∧
      (condExprTruePathResult r1 r2).1 = true ∧
      (condExprFalsePathResult r1 r2).1 = true) ∧
    (r1 = r2 →
      (condExprTruePathResult r1 r2).2 = 0 ∧
      (condExprFalsePathResult r1 r2).2 = 0) ∧
    condExprFinalCleanup r1 r2 = (condExprTruePathResult r1 r2).1 := by
  cases r1 <;> cases r2 <;> decide

/-- Witness for claim C8 at the divergent case needs_ref1 true, needs_ref2
false: the increment lands on the borrowing (false) path only and both paths
end owning. -/
theorem conditional_expression_ownership_reconciled_witness :
    (condExprTruePathResult true false).2 = 0 ∧
    (condExprFalsePathResult true false).2 = 1 ∧
    (condExprTruePathResult true false).1 = true ∧
    (condExprFalsePathResult true false).1 = true :=
  (conditional_expression_ownership_reconciled true false).2.1 rfl rfl

/-! ### Loop lowering (`generateLoopCode`, CodeGeneration.py lines 3534-3572) -/

/-- The instructions of the emitted loop code: labels, gotos, the
`CONSIDER_THREADING()` cooperative-scheduling checkpoint (whose failure
branches to the exception-escape target), and opaque body statements with no
control transfer. -/
inductive LoopInstr where
  | labelAt (l : Nat)
  | gotoL (l : Nat)
  | considerThreading
  | plainStmt
  deriving DecidableEq, Repr

/-- A statement of the loop body, as far as loop control flow is concerned. -/
inductive LoopBodyStmt where
  | plain
  | continueLoop
  | breakLoop
  deriving DecidableEq, Repr

/-- Lowering of one body statement.  Modelled from the spec for the two
support emitters (`Generator.getLoopContinueCode` and
`Generator.getLoopBreakCode` are not under src/): "continue jumps to
loop-start; break jumps to loop-end", through the targets that
`generateLoopCode` installs at lines 3550-3551 — the continue target is the
`loop_start` label 0 and the break target is the `loop_end` label 1. -/
def lowerLoopStatement : LoopBodyStmt → LoopInstr
  | .plain => .plainStmt
  | .continueLoop => .gotoL 0
  | .breakLoop => .gotoL 1

/-- `generateLoopCode` (lines 3534-3572): emits the `loop_start` label
(label 0), the lowered body, the `CONSIDER_THREADING()` checkpoint, the
unconditional goto back to `loop_start`, and — unless the loop statement is
aborting — the `loop_end` label (label 1). -/
def generateLoopCode (aborting : Bool) (body : List LoopBodyStmt) : List LoopInstr :=
  [.labelAt 0] ++ body.map lowerLoopStatement ++
    [.considerThreading, .gotoL 0] ++
    (if aborting then [] else [.labelAt 1])

/-- Position of a label in the emitted loop code. -/
def loopLabelPos : List LoopInstr → Nat → Nat
  | [], _ => 0
  | .labelAt l' :: rest, l => if l' = l then 0 else loopLabelPos rest l + 1
  | _ :: rest, l => loopLabelPos rest l + 1

/-- Result of running one loop iteration: control reached the `loop_start`
label again, control left the loop (reached `loop_end` or ran off the code),
or the fuel ran out. -/
inductive LoopIterResult where
  | backAtStart (trace : List LoopInstr)
  | exited (trace : List LoopInstr)
  | outOfFuel
  deriving DecidableEq, Repr

/-- Fuel-bounded execution of one iteration of the emitted loop code from a
program counter, recording the executed instructions; stops on reaching the
`loop_start` label 0 (end of the iteration) or any other label (loop exit). -/
def runLoopIter (prog : List LoopInstr) : Nat → Nat → List LoopInstr → LoopIterResult
  | 0, _, _ => .outOfFuel
  | fuel + 1, pc, acc =>
    match prog.get? pc with
    | none => .exited acc.reverse
    | some (.labelAt l) =>
      if l = 0 then .backAtStart acc.reverse else .exited acc.reverse
    | some (.gotoL l) => runLoopIter prog fuel (loopLabelPos prog l) (.gotoL l :: acc)
    | some .considerThreading =>
      runLoopIter prog fuel (pc + 1) (.considerThreading :: acc)
    | some .plainStmt => runLoopIter prog fuel (pc + 1) (.plainStmt :: acc)

/-- Claim C6 counterexample: in the loop generated for a body consisting of a
single continue statement, the iteration ending in the continue executes no
`CONSIDER_THREADING()` checkpoint at all — the continue jumps directly to the
`loop_start` label, which precedes the checkpoint, although the emitted loop
code does contain the checkpoint (after the body, before the back-jump).
This refutes the claim that every iteration, including those ending in a
continue, executes the checkpoint. -/
theorem loop_continue_skips_threading_checkpoint :
    runLoopIter (generateLoopCode false [.continueLoop]) 8 1 [] =
      .backAtStart [.gotoL 0] ∧
    LoopInstr.considerThreading ∈ generateLoopCode false [.continueLoop] := by
  decide

theorem runLoopIter_step_plain (prog : List LoopInstr) (fuel pc : Nat)
    (acc : List LoopInstr) (h : prog.get? pc = some .plainStmt) :
    runLoopIter prog (fuel + 1) pc acc =
      runLoopIter prog fuel (pc + 1) (.plainStmt :: acc) := by
  simp only [runLoopIter, h]

theorem runLoopIter_step_consider (prog : List LoopInstr) (fuel pc : Nat)
    (acc : List LoopInstr) (h : prog.get? pc = some .considerThreading) :
    runLoopIter prog (fuel + 1) pc acc =
      runLoopIter prog fuel (pc + 1) (.considerThreading :: acc) := by
  simp only [runLoopIter, h]

theorem runLoopIter_step_goto (prog : List LoopInstr) (fuel pc l : Nat)
    (acc : List LoopInstr) (h : prog.get? pc = some (.gotoL l)) :
    runLoopIter prog (fuel + 1) pc acc =
      runLoopIter prog fuel (loopLabelPos prog l) (.gotoL l :: acc) := by
  simp only [runLoopIter, h]

theorem runLoopIter_step_label0 (prog : List LoopInstr) (fuel pc : Nat)
    (acc : List LoopInstr) (h : prog.get? pc = some (.labelAt 0)) :
    runLoopIter prog (fuel + 1) pc acc = .backAtStart acc.reverse := by
  simp only [runLoopIter, h]
  simp

/-- Sequential execution through `k` plain statements followed by the
checkpoint and the unconditional back-jump to the `loop_start` label. -/
theorem runLoopIter_plain_segment (prog : List LoopInstr) :
    ∀ (k pc : Nat) (acc : List LoopInstr),
    (∀ j, j < k → prog.get? (pc + j) = some .plainStmt) →
    prog.get? (pc + k) = some .considerThreading →
    prog.get? (pc + k + 1) = some (.gotoL 0) →
    prog.get? (loopLabelPos prog 0) = some (.labelAt 0) →
    runLoopIter prog (k + 3) pc acc =
      .backAtStart (acc.reverse ++
        (List.replicate k LoopInstr.plainStmt ++ [.considerThreading, .gotoL 0])) := by
  intro k
  induction k with
  | zero =>
    intro pc acc _ hct hgoto hlabel
    simp only [Nat.add_zero] at hct hgoto
    show runLoopIter prog (2 + 1) pc acc = _
    rw [runLoopIter_step_consider prog 2 pc acc hct]
    show runLoopIter prog (1 + 1) (pc + 1) _ = _
    rw [runLoopIter_step_goto prog 1 (pc + 1) 0 _ hgoto]
    show runLoopIter prog (0 + 1) _ _ = _
    rw [runLoopIter_step_label0 prog 0 _ _ hlabel]
    simp
  | succ k ih =>
    intro pc acc hplain hct hgoto hlabel
    have h0 : prog.get? pc = some .plainStmt := by
      have := hplain 0 (Nat.succ_pos k)
      simpa using this
    show runLoopIter prog (k + 3 + 1) pc acc = _
    rw [runLoopIter_step_plain prog (k + 3) pc acc h0]
    have hplain' : ∀ j, j < k → prog.get? (pc + 1 + j) = some .plainStmt := by
      intro j hj
      have := hplain (j + 1) (Nat.succ_lt_succ hj)
      have harith : pc + (j + 1) = pc + 1 + j := by omega
      rwa [harith] at this
    have hct' : prog.get? (pc + 1 + k) = some .considerThreading := by
      have harith : pc + 1 + k = pc + (k + 1) := by omega
      rw [harith]; exact hct
    have hgoto' : prog.get? (pc + 1 + k + 1) = some (.gotoL 0) := by
      have harith : pc + 1 + k + 1 = pc + (k + 1) + 1 := by omega
      rw [harith]; exact hgoto
    rw [ih (pc + 1) (.plainStmt :: acc) hplain' hct' hgoto' hlabel]
    simp [List.replicate_succ]

/-- Claim C6 (amended): in the emitted loop code, continue jumps to the
loop-start label and break to the loop-end label, the cooperative-scheduling
checkpoint is emitted after the body immediately before the unconditional
back-jump to loop-start (so the loop is infinite by construction, exited only
via break), and an iteration that falls through the body executes the
checkpoint exactly once before returning to loop-start — but an iteration
ending in a continue jumps directly to loop-start and bypasses the
checkpoint. -/
theorem generateLoopCode_iteration_discipline (aborting : Bool)
    (body : List LoopBodyStmt) (h : ∀ s ∈ body, s = .plain) :
    lowerLoopStatement .continueLoop = .gotoL 0 ∧
    lowerLoopStatement .breakLoop = .gotoL 1 ∧
    (generateLoopCode aborting body).get? (body.length + 1) =
      some .considerThreading ∧
    (generateLoopCode aborting body).get? (body.length + 2) = some (.gotoL 0) ∧
    runLoopIter (generateLoopCode aborting body) (body.length + 3) 1 [] =
      .backAtStart (List.replicate body.length LoopInstr.plainStmt ++
        [.considerThreading, .gotoL 0]) := by
  have hform : generateLoopCode aborting body =
      .labelAt 0 :: (body.map lowerLoopStatement ++
        ([.considerThreading, .gotoL 0] ++
          (if aborting then [] else [.labelAt 1]))) := by
    simp [generateLoopCode]
  have hlen : (body.map lowerLoopStatement).length = body.length :=
    List.length_map _ _
  have hget_ct : (generateLoopCode aborting body).get? (body.length + 1) =
      some .considerThreading := by
    rw [hform, List.get?_cons_succ,
      List.get?_append_right (by omega : (body.map lowerLoopStatement).length ≤ body.length)]
    simp [hlen]
  have hget_goto : (generateLoopCode aborting body).get? (body.length + 2) =
      some (.gotoL 0) := by
    rw [hform]
    have : body.length + 2 = (body.length + 1) + 1 := rfl
    rw [this, List.get?_cons_succ,
      List.get?_append_right (by omega : (body.map lowerLoopStatement).length ≤ body.length + 1)]
    simp [hlen]
  refine ⟨rfl, rfl, hget_ct, hget_goto, ?_⟩
  have hplain : ∀ j, j < body.length →
      (generateLoopCode aborting body).get? (1 + j) = some .plainStmt := by
    intro j hj
    rw [hform]
    have : 1 + j = j + 1 := Nat.add_comm 1 j
    rw [this, List.get?_cons_succ,
      List.get?_append (by omega : j < (body.map lowerLoopStatement).length)]
    cases hbj : body.get? j with
    | none =>
      have := List.get?_eq_none.mp hbj
      omega
    | some s =>
      have hmem : s ∈ body := List.get?_mem hbj
      have hs : s = .plain := h s hmem
      rw [List.get?_map, hbj, hs]
      rfl
  have hct : (generateLoopCode aborting body).get? (1 + body.length) =
      some .considerThreading := by
    have : 1 + body.length = body.length + 1 := Nat.add_comm _ _
    rw [this]; exact hget_ct
  have hgoto : (generateLoopCode aborting body).get? (1 + body.length + 1) =
      some (.gotoL 0) := by
    have : 1 + body.length + 1 = body.length + 2 := by omega
    rw [this]; exact hget_goto
  have hlabel : (generateLoopCode aborting body).get?
      (loopLabelPos (generateLoopCode aborting body) 0) = some (.labelAt 0) := by
    rw [hform]
    simp [loopLabelPos]
  have := runLoopIter_plain_segment (generateLoopCode aborting body)
    body.length 1 [] hplain hct hgoto hlabel
  simpa using this

/-- Witness for the amended claim C6: a loop body of two plain statements
runs one full iteration executing the checkpoint exactly once before the
back-jump to loop-start. -/
theorem generateLoopCode_iteration_discipline_witness :
    runLoopIter (generateLoopCode false [.plain, .plain]) 5 1 [] =
      LoopIterResult.backAtStart
        [.plainStmt, .plainStmt, .considerThreading, .gotoL 0] := by
  have h := (generateLoopCode_iteration_discipline false [.plain, .plain]
    (by decide)).2.2.2.2
  simpa using h

/-! ### The fused advance-or-break idiom
(`generateTryNextExceptStopIterationCode` lines 2704-2782 and
`generateTryExceptCode` lines 2785-2787) -/

mutual

/-- The statements the recognizer inspects: a variable assignment from a
one-argument iterator advance (`isExpressionBuiltinNext1`) or from another
expression, a conditional with two branches, a loop break, a bare re-raise,
or anything else. -/
inductive TEStmt where
  | assignVarFromNext1 (v : Nat) (iterExpr : Nat) : TEStmt
  | assignVarOther (v : Nat) (k : Nat) : TEStmt
  | conditional (yes : TEStmtList) (no : TEStmtList) : TEStmt
  | breakLoop : TEStmt
  | reraise : TEStmt
  | otherStmt (k : Nat) : TEStmt
  deriving DecidableEq, Repr

inductive TEStmtList where
  | nil : TEStmtList
  | cons (s : TEStmt) (rest : TEStmtList) : TEStmtList
  deriving DecidableEq, Repr

end

/-- A try/except statement node, reduced to what the recognizer reads:
`statement.public_exc`, the tried block statements and the exception
handling block (absent when `getExceptionHandling()` is `None`). -/
structure TryExceptNode where
  publicExc : Bool
  tried : TEStmtList
  handling : Option TEStmtList
  deriving DecidableEq, Repr

/-- `generateTryNextExceptStopIterationCode` (lines 2704-2782), the
recognizer part: returns whether the fused lowering applies.  Following the
source checks in order, it requires exception state not published, a handling
block present, exactly one tried statement that assigns a variable from a
one-argument iterator advance, and exactly one handler statement that is a
conditional whose yes branch is a single loop break and whose no branch is a
single re-raise. -/
def generateTryNextExceptStopIterationCode (st : TryExceptNode) : Bool :=
  if st.publicExc then false
  else
    match st.handling with
    | none => false
    | some handling =>
      match st.tried with
      | .cons (TEStmt.assignVarFromNext1 _ _) .nil =>
        match handling with
        | .cons (TEStmt.conditional yes no) .nil =>
          match yes with
          | .cons TEStmt.breakLoop .nil =>
            match no with
            | .cons TEStmt.reraise .nil => true
            | _ => false
          | _ => false
        | _ => false
      | _ => false

/-- The two lowerings `generateTryExceptCode` can produce. -/
inductive TryExceptLowering where
  | fusedAdvanceOrBreak
  | generalTryExcept
  deriving DecidableEq, Repr

/-- `generateTryExceptCode` (lines 2785-2787): tries the fused lowering first
and only falls back to the general try/except label machinery when the idiom
is not recognized. -/
def generateTryExceptCode (st : TryExceptNode) : TryExceptLowering :=
  if generateTryNextExceptStopIterationCode st then .fusedAdvanceOrBreak
  else .generalTryExcept

/-- The exception raised by advancing an iterator: the exhaustion signal or
some other exception. -/
inductive IterExc where
  | stopIteration
  | otherExc (e : Nat)
  deriving DecidableEq, Repr

/-- The outcome of the one-argument iterator advance. -/
inductive NextOutcome where
  | ok (v : Nat)
  | raised (exc : IterExc)
  deriving DecidableEq, Repr

/-- The observable result of executing the try/except construct once. -/
inductive TryExceptResult where
  | assigned (v : Nat)
  | brokeLoop
  | propagated (exc : IterExc)
  deriving DecidableEq, Repr

/-- Modelled from the spec: the fused advance-or-break support call
(`Generator.getBuiltinLoopBreakNextCode`, not under `src/`) "advances an
iterator inside a try, breaks on exhaustion" and "any non-exhaustion
exception still propagates normally"; on success the fetched value is
assigned to the target variable. -/
def fusedAdvanceOrBreakSem : NextOutcome → TryExceptResult
  | .ok v => .assigned v
  | .raised .stopIteration => .brokeLoop
  | .raised (.otherExc e) => .propagated (.otherExc e)

/-- The semantics of the general try/except lowering of the recognized shape:
the tried block assigns on success; on an exception the handler runs its
conditional, whose condition — per the claim — matches the exhaustion
exception: the yes branch is the single loop break and the no branch the
single re-raise of the live exception. -/
def generalTryExceptPatternSem : NextOutcome → TryExceptResult
  | .ok v => .assigned v
  | .raised exc =>
    match exc with
    | .stopIteration => .brokeLoop
    | .otherExc e => .propagated (.otherExc e)

/-- Claim C7: a try/except whose exception state is not published, whose sole
tried statement assigns from a one-argument iterator advance and whose sole
handler statement is the conditional breaking the loop on exhaustion and
re-raising otherwise, lowers to the single fused advance-or-break call rather
than the general try/except label machinery, and the fused call has the same
observable behaviour as the general lowering of that shape on every outcome
of the iterator advance: value assigned, loop broken on exhaustion, any other
exception propagated. -/
theorem try_next_except_fused_lowering (v it : Nat) :
    generateTryNextExceptStopIterationCode
        ⟨false, .cons (TEStmt.assignVarFromNext1 v it) .nil,
          some (.cons (TEStmt.conditional
            (.cons TEStmt.breakLoop .nil) (.cons TEStmt.reraise .nil)) .nil)⟩ =
      true ∧
    generateTryExceptCode
        ⟨false, .cons (TEStmt.assignVarFromNext1 v it) .nil,
          some (.cons (TEStmt.conditional
            (.cons TEStmt.breakLoop .nil) (.cons TEStmt.reraise .nil)) .nil)⟩ =
      .fusedAdvanceOrBreak ∧
    (∀ o : NextOutcome, fusedAdvanceOrBreakSem o = generalTryExceptPatternSem o) := by
  refine ⟨rfl, rfl, ?_⟩
  intro o
  cases o with
  | ok w => rfl
  | raised exc => cases exc <;> rfl

/-- Witness for claim C7 at concrete inputs: a `v = next(it)` try/except with
the break/re-raise handler lowers to the fused call, and a non-exhaustion
exception propagates identically under both semantics. -/
theorem try_next_except_fused_lowering_witness :
    generateTryExceptCode
        ⟨false, .cons (TEStmt.assignVarFromNext1 0 1) .nil,
          some (.cons (TEStmt.conditional
            (.cons TEStmt.breakLoop .nil) (.cons TEStmt.reraise .nil)) .nil)⟩ =
      .fusedAdvanceOrBreak ∧
    fusedAdvanceOrBreakSem (.raised (.otherExc 3)) =
      generalTryExceptPatternSem (.raised (.otherExc 3)) :=
  ⟨(try_next_except_fused_lowering 0 1).2.1,
   (try_next_except_fused_lowering 0 1).2.2 (.raised (.otherExc 3))⟩


/-! ### Chained-comparison reformulation
(`buildComparisonNode`, ReformulationComparisonExpressions.py lines 36-130) -/

/-- Value-producing operand expressions of the reformulated chain: an
original operand expression (identified by its position in the chain, 0 for
`node.left` and 1, 2, ... for the comparators), a temp-variable reference
(`ExpressionTempVariableRef`), or the keeper assignment — the
`ExpressionTryFinally` with tried block `[keeper := rhs]`, empty final block
and expression `keeper-ref` built at lines 89-111. -/
inductive CmpOperand where
  | operand (i : Nat)
  | tempRef (v : Nat)
  | keeperAssign (v : Nat) (rhs : CmpOperand)
  deriving DecidableEq, Repr

/-- Boolean-producing expressions of the reformulated chain: a binary
comparison (`makeComparisonNode`) and the short-circuit conjunction. -/
inductive CmpBoolExpr where
  | cmpE (op : Nat) (l r : CmpOperand)
  | andE (a b : CmpBoolExpr)
  deriving DecidableEq, Repr

/-- The loop of `buildComparisonNode` (lines 63-122) fused with the
conjunction of the collected `result` list: `left` is the current left
operand, `idx` the next keeper index (the source names keepers
`value_%d` with the right operand position plus 2, so indices run 2, 3, ...),
`(op, r)` the current comparator and right-operand position, `rest` the
remaining pairs.  The last comparison takes its right operand literally; every
earlier one wraps it in the keeper assignment and the next comparison takes a
temp reference to that keeper as its left operand.  The conjunction of the
parts is `buildAndNode` (ReformulationBooleanExpressions, not under src/),
modelled from the spec as the right-nested short-circuit "and". -/
def buildComparisonAnd (left : CmpOperand) (idx op r : Nat) :
    List (Nat × Nat) → CmpBoolExpr
  | [] => .cmpE op left (.operand r)
  | (op', r') :: rest =>
    .andE (.cmpE op left (.keeperAssign idx (.operand r)))
      (buildComparisonAnd (.tempRef idx) (idx + 1) op' r' rest)

/-- `buildComparisonNode` (lines 36-130): the left operand is the literal
`node.left` (position `leftIdx`), and the comparator/right-operand pairs
`first :: rest` are the zip of `node.ops` with the built `rights`; a chain
has at least one comparison. -/
def buildComparisonNode (leftIdx : Nat) (first : Nat × Nat)
    (rest : List (Nat × Nat)) : CmpBoolExpr :=
  buildComparisonAnd (.operand leftIdx) 2 first.1 first.2 rest

/-- Evaluation of an operand expression: `env` gives the value of each
original operand (evaluating it appends its position to the trace), a temp
reference reads the store without any effect, and the keeper assignment
evaluates its right-hand side, stores it and yields it. -/
def evalOperand {V : Type} (env : Nat → V) :
    CmpOperand → (Nat → V) → V × (Nat → V) × List Nat
  | .operand i, σ => (env i, σ, [i])
  | .tempRef v, σ => (σ v, σ, [])
  | .keeperAssign v rhs, σ =>
    let r := evalOperand env rhs σ
    (r.1, Function.update r.2.1 v r.1, r.2.2)

/-- Evaluation of a boolean expression of the reformulated chain: a
comparison evaluates its operands left to right and applies the comparator
`cmpf`; the conjunction is short-circuit — the right conjunct is not touched
when the left one is false. -/
def evalBool {V : Type} (env : Nat → V) (cmpf : Nat → V → V → Bool) :
    CmpBoolExpr → (Nat → V) → Bool × (Nat → V) × List Nat
  | .cmpE op l r, σ =>
    let lr := evalOperand env l σ
    let rr := evalOperand env r lr.2.1
    (cmpf op lr.1 rr.1, rr.2.1, lr.2.2 ++ rr.2.2)
  | .andE a b, σ =>
    let ar := evalBool env cmpf a σ
    if ar.1 then
      let br := evalBool env cmpf b ar.2.1
      (br.1, br.2.1, ar.2.2 ++ br.2.2)
    else (false, ar.2.1, ar.2.2)

/-- The source-language semantics of a chained comparison, as the claim
states it: the short-circuit conjunction of the adjacent binary comparisons
in which every operand is evaluated at most once, left to right, the shared
middle operands are evaluated exactly once, and evaluation stops at the first
false comparison.  Returns the result and the trace of right-operand
positions evaluated. -/
def specChainedComparison {V : Type} (env : Nat → V) (cmpf : Nat → V → V → Bool)
    (vleft : V) : List (Nat × Nat) → Bool × List Nat
  | [] => (true, [])
  | (op, r) :: rest =>
    let vr := env r
    if cmpf op vleft vr then
      let res := specChainedComparison env cmpf vr rest
      (res.1, r :: res.2)
    else (false, [r])

theorem specChainedComparison_trace_prefix {V : Type} (env : Nat → V)
    (cmpf : Nat → V → V → Bool) :
    ∀ (pairs : List (Nat × Nat)) (vleft : V),
    ∃ t, (specChainedComparison env cmpf vleft pairs).2 ++ t =
      pairs.map Prod.snd := by
  intro pairs
  induction pairs with
  | nil => exact fun _ => ⟨[], rfl⟩
  | cons p rest ih =>
    intro vleft
    obtain ⟨op, r⟩ := p
    by_cases hc : cmpf op vleft (env r) = true
    · obtain ⟨t, ht⟩ := ih (env r)
      refine ⟨t, ?_⟩
      simp only [specChainedComparison, hc, if_true, List.map_cons, List.cons_append]
      rw [ht]
    · refine ⟨rest.map Prod.snd, ?_⟩
      simp only [specChainedComparison, hc, if_false, List.map_cons]
      simp

theorem buildComparisonAnd_eval {V : Type} (env : Nat → V)
    (cmpf : Nat → V → V → Bool) :
    ∀ (rest : List (Nat × Nat)) (left : CmpOperand) (idx op r : Nat)
      (σ : Nat → V) (vl : V) (tl : List Nat),
    evalOperand env left σ = (vl, σ, tl) →
    ∃ σ', evalBool env cmpf (buildComparisonAnd left idx op r rest) σ =
      ((specChainedComparison env cmpf vl ((op, r) :: rest)).1, σ',
        tl ++ (specChainedComparison env cmpf vl ((op, r) :: rest)).2) := by
  intro rest
  induction rest with
  | nil =>
    intro left idx op r σ vl tl hleft
    refine ⟨σ, ?_⟩
    simp only [buildComparisonAnd, evalBool, hleft, evalOperand, specChainedComparison]
    by_cases hc : cmpf op vl (env r) = true <;> simp [hc]
  | cons p rest' ih =>
    intro left idx op r σ vl tl hleft
    obtain ⟨op', r'⟩ := p
    simp only [buildComparisonAnd, evalBool, hleft, evalOperand, specChainedComparison]
    by_cases hc : cmpf op vl (env r) = true
    · have hread : evalOperand env (.tempRef idx)
          (Function.update σ idx (env r)) =
          (env r, Function.update σ idx (env r), []) := by
        simp [evalOperand]
      obtain ⟨σ', hσ'⟩ := ih (.tempRef idx) (idx + 1) op' r'
        (Function.update σ idx (env r)) (env r) [] hread
      refine ⟨σ', ?_⟩
      simp only [hc, if_true, hσ']
      by_cases hc' : cmpf op' (env r) (env r') = true <;>
        simp [specChainedComparison, hc']
    · refine ⟨Function.update σ idx (env r), ?_⟩
      simp [hc]

/-- Claim C5: the reformulated chained comparison evaluates exactly like the
short-circuit conjunction of the adjacent binary comparisons with shared
middle operands — same result and the operand-evaluation trace is the left
operand followed by the right operands up to and including the first failing
comparison (a prefix of the left-to-right operand order, each evaluated at
most once and the shared operand exactly once).  Structurally, the first
comparison takes the literal left operand and the literal right operand (the
latter inside its value-preserving keeper assignment when the chain
continues), and every subsequent comparison takes a temp reference to the
keeper of the previously evaluated right operand.  The final conjunct checks
the `a < b < c` scenario with a false first comparison: the trace is exactly
`[a, b]` — `b` evaluated exactly once and `c` not at all. -/
theorem chained_comparison_reformulation {V : Type} (env : Nat → V)
    (cmpf : Nat → V → V → Bool) (σ : Nat → V) (leftIdx : Nat)
    (first : Nat × Nat) (rest : List (Nat × Nat)) :
    (∃ σ', evalBool env cmpf (buildComparisonNode leftIdx first rest) σ =
      ((specChainedComparison env cmpf (env leftIdx) (first :: rest)).1, σ',
        leftIdx ::
          (specChainedComparison env cmpf (env leftIdx) (first :: rest)).2)) ∧
    (∃ t, (specChainedComparison env cmpf (env leftIdx) (first :: rest)).2 ++ t =
      (first :: rest).map Prod.snd) ∧
    buildComparisonNode leftIdx first [] =
      .cmpE first.1 (.operand leftIdx) (.operand first.2) ∧
    (∀ p ps, buildComparisonNode leftIdx first (p :: ps) =
      .andE (.cmpE first.1 (.operand leftIdx) (.keeperAssign 2 (.operand first.2)))
        (buildComparisonAnd (.tempRef 2) 3 p.1 p.2 ps)) ∧
    ((evalBool (fun i => i) (fun _ _ _ => false)
        (buildComparisonNode 0 (0, 1) [(0, 2)]) (fun _ => 0)).1 = false ∧
      (evalBool (fun i => i) (fun _ _ _ => false)
        (buildComparisonNode 0 (0, 1) [(0, 2)]) (fun _ => 0)).2.2 = [0, 1]) := by
  refine ⟨?_, ?_, rfl, ?_, by decide, by decide⟩
  · have hleft : evalOperand env (.operand leftIdx) σ = (env leftIdx, σ, [leftIdx]) := rfl
    obtain ⟨σ', hσ'⟩ := buildComparisonAnd_eval env cmpf rest (.operand leftIdx)
      2 first.1 first.2 σ (env leftIdx) [leftIdx] hleft
    refine ⟨σ', ?_⟩
    obtain ⟨f1, f2⟩ := first
    simpa using hσ'
  · exact specChainedComparison_trace_prefix env cmpf (first :: rest) (env leftIdx)
  · intro p ps
    obtain ⟨f1, f2⟩ := first
    rfl

end Nuitka
